import Mathlib

/-!
Verification of the dependency-classification and component-type inference
engine of the shadcn-vue registry generator.

The development shallowly embeds the TypeScript sources:
  * `src/utils/utils.ts`      — `escapeRegExp` (represented semantically), `getPackageName`
  * `src/utils/dependencies.ts` — `getDependencies` and its helpers
  * `src/utils/types.ts`      — `getRegistryType`, `searchTypeInSegments`
  * `src/constant/typeMap.ts` — `REGISTRY_TYPES`, `typeMap`, `COMMON_PREFIXES`
  * `src/core/registry.name.ts` — `getComponentName`
  * `src/core/registry.config.ts` — the package.json reading of `loadProjectConfig`

Strings are modelled as Lean `String` (sequences of Unicode code points); the
JavaScript string operations used by the sources (`startsWith`, `split`,
`slice`, `endsWith`, `replace` with a string pattern, template literals) are
given as executable functions over `List Char`.  File contents and the import
regex `(?:import|from)\s+['"]([^'"]+)['"]` are treated at the boundary the
spec assigns to them: a scanned file is represented by the list of literals
the regex matches in it (each `match[1]`, always non-empty by `[^'"]+`).
-/

/-- Boolean prefix test on character lists (the semantics of JS
`String.prototype.startsWith` and of a `^`-anchored literal regex). -/
def hasPfx : List Char → List Char → Bool
  | [], _ => true
  | _ :: _, [] => false
  | p :: ps, c :: cs => p == c && hasPfx ps cs

/-- JS `s.startsWith(p)`. -/
def strStarts (s p : String) : Bool := hasPfx p.data s.data

/-- Boolean suffix test, via reversal. -/
def hasSfx (suf s : List Char) : Bool := hasPfx suf.reverse s.reverse

/-- JS `s.endsWith(p)`. -/
def strEnds (s p : String) : Bool := hasSfx p.data s.data

/-- Rebuild a string from its characters. -/
def ofChars (cs : List Char) : String := ⟨cs⟩

/-- JS `s.split(sep)` for a one-character separator: `"".split` gives `[""]`,
separators at the ends give empty fields. -/
def splitChar (sep : Char) : List Char → List (List Char)
  | [] => [[]]
  | c :: cs =>
    let r := splitChar sep cs
    if c == sep then [] :: r
    else
      match r with
      | [] => [[c]]
      | h :: t => (c :: h) :: t

/-- Longest run of non-`'/'` characters at the front (the match of a greedy
`[^/]+`, possibly empty). -/
def takeNonSlash : List Char → List Char
  | [] => []
  | c :: cs => if c == '/' then [] else c :: takeNonSlash cs

/-- JS `s.replace(pat, repl)` with a string pattern: the first occurrence of
`pat` is replaced (`$`-substitution in the replacement is not modelled; no
input in this development contains `$`). -/
def replaceFirstAux (pat repl : List Char) : List Char → List Char
  | [] => []
  | c :: cs =>
    if hasPfx pat (c :: cs) then repl ++ (c :: cs).drop pat.length
    else c :: replaceFirstAux pat repl cs

/-- JS `s.replace(pat, repl)` on strings; an empty pattern matches at the
start, as in JS. -/
def replaceFirst (s pat repl : String) : String :=
  if pat.data.isEmpty then ofChars (repl.data ++ s.data)
  else ofChars (replaceFirstAux pat.data repl.data s.data)

/-- Modelled from the spec: the platform's Unicode NFKC normalization
(`String.prototype.normalize('NFKC')`), which the repository calls but does
not implement.  The model covers the code points exercised in this
development: the fullwidth ASCII variants U+FF01–U+FF5E map to their ASCII
counterparts (a true NFKC mapping), and every other code point is fixed
(true of all ASCII, which NFKC never changes). -/
def nfkcChar (c : Char) : Char :=
  if 0xFF01 ≤ c.toNat ∧ c.toNat ≤ 0xFF5E then Char.ofNat (c.toNat - 0xFEE0) else c

/-- NFKC normalization of a string (see `nfkcChar`). -/
def nfkc (s : String) : String := ofChars (s.data.map nfkcChar)

/-- Lexicographic comparison of character lists by code point (the order JS
`Array.prototype.sort`'s default comparator induces on the strings appearing
here). -/
def charsLe : List Char → List Char → Bool
  | [], _ => true
  | _ :: _, [] => false
  | a :: as, b :: bs =>
    if a.toNat < b.toNat then true
    else if b.toNat < a.toNat then false
    else charsLe as bs

/-- Lexicographic string order, ascending. -/
def strLe (a b : String) : Bool := charsLe a.data b.data

/-- Insertion into a `strLe`-sorted list. -/
def insertSorted (x : String) : List String → List String
  | [] => [x]
  | y :: ys => if strLe x y then x :: y :: ys else y :: insertSorted x ys

/-- Sorting used to model `Array.from(set).sort()` on the deduplicated
buckets. -/
def sortStrings (l : List String) : List String := l.foldr insertSorted []

/-- JS `Set.prototype.add`: append the element unless already present. -/
def addOnce (l : List String) (s : String) : List String :=
  if s ∈ l then l else l ++ [s]

/-- Translated from `src/utils/utils.ts` `getPackageName`: scoped names keep
their first two `/`-segments, others their first segment. -/
def getPackageName (dep : String) : String :=
  if strStarts dep "@" then
    match splitChar '/' dep.data with
    | p0 :: p1 :: _ =>
      if p0 ≠ [] ∧ p1 ≠ [] then ofChars (p0 ++ '/' :: p1) else dep
    | _ => dep
  else
    match splitChar '/' dep.data with
    | [] => dep
    | p :: _ => ofChars p

/-- Translated from `src/utils/dependencies.ts` `knownThirdPartyLibs`. -/
def knownThirdPartyLibs : List String :=
  ["vue-router", "pinia", "vue", "unplugin-vue-components", "unplugin-auto-import"]

/-- Semantics of `IGNORE_UTILS_REGEX = /(?:^|\/)lib\/utils$/`: the string is
exactly `lib/utils` or ends in `/lib/utils`. -/
def isIgnoredUtils (dep : String) : Bool :=
  dep == "lib/utils" || strEnds dep "/lib/utils"

/-- Leftmost-match semantics of `SHADCN_REGEX =
/(?:^|\/)components\/ui\/([^/]+)/` as executed by `exec`: scan positions left
to right; at a position that is the string start or preceded by `/`, if the
literal `components/ui/` follows and at least one non-`/` character follows
it, capture the maximal run of non-`/` characters.  The `Bool` argument says
whether the current position is such a boundary. -/
def shadcnAux : Bool → List Char → Option String
  | _, [] => none
  | bnd, c :: cs =>
    if bnd && hasPfx "components/ui/".data (c :: cs)
        && !(takeNonSlash ((c :: cs).drop 14)).isEmpty then
      some (ofChars (takeNonSlash ((c :: cs).drop 14)))
    else shadcnAux (c == '/') cs

/-- Capture group 1 of the first `SHADCN_REGEX` match, if any. -/
def shadcnCapture (dep : String) : Option String := shadcnAux true dep.data

/-- Value of one entry of the `registries` table
(`IComponentsRegistry`): either a bare URL-template string or an object with
a `url` and optional `params` (the optional `header` field is never read by
`getDependencies` and is omitted). -/
inductive RegistryValue where
  | plain (url : String)
  | withParams (url : String) (params : Option (List (String × String)))
deriving Repr, DecidableEq

/-- Preprocessed matcher, one per `registries` entry, as built at
`src/utils/dependencies.ts:87-99`: the NFKC-normalized prefix (whose escaped
form anchors the regex `^prefix(?:\/|$)`), its length, the URL template and
the optional params. -/
structure Matcher where
  pfxLen : Nat
  pfx : String
  urlTemplate : String
  params : Option (List (String × String))
deriving Repr, DecidableEq

/-- Translated from the matcher construction over `Object.entries` of the
registry table (`escapeRegExp` makes the regex match the prefix literally, so
the regex is represented by the prefix string itself). -/
def buildMatchers (regs : List (String × RegistryValue)) : List Matcher :=
  regs.map fun e =>
    let np := nfkc e.1
    match e.2 with
    | .plain u => ⟨np.data.length, np, u, none⟩
    | .withParams u ps => ⟨np.data.length, np, u, ps⟩

/-- Test of `new RegExp('^' + escapedPrefix + '(?:/|$)')` against `dep`. -/
def matcherTest (m : Matcher) (dep : String) : Bool :=
  dep == m.pfx || hasPfx (m.pfx.data ++ ['/']) dep.data

/-- Uppercase hexadecimal digit. -/
def hexDigitChar (n : Nat) : Char :=
  if n < 10 then Char.ofNat (48 + n) else Char.ofNat (55 + n)

/-- UTF-8 bytes of a code point. -/
def utf8Bytes (n : Nat) : List Nat :=
  if n < 0x80 then [n]
  else if n < 0x800 then [0xC0 + n / 0x40, 0x80 + n % 0x40]
  else if n < 0x10000 then
    [0xE0 + n / 0x1000, 0x80 + (n / 0x40) % 0x40, 0x80 + n % 0x40]
  else
    [0xF0 + n / 0x40000, 0x80 + (n / 0x1000) % 0x40,
     0x80 + (n / 0x40) % 0x40, 0x80 + n % 0x40]

/-- Percent-encoding of one byte, `%XX` with uppercase hex. -/
def percentByte (b : Nat) : String :=
  ofChars ['%', hexDigitChar (b / 16), hexDigitChar (b % 16)]

/-- Modelled from the spec: the platform's `URLSearchParams` serialization of
one component (`application/x-www-form-urlencoded`): ASCII alphanumerics and
`*`, `-`, `.`, `_` unchanged, space as `+`, every other character
percent-encoded byte-wise in UTF-8. -/
def formEncodeChar (c : Char) : String :=
  if c == ' ' then "+"
  else if c.isAlphanum || c == '*' || c == '-' || c == '.' || c == '_' then
    ofChars [c]
  else String.join ((utf8Bytes c.toNat).map percentByte)

/-- Form-url-encoding of a full string. -/
def formEncode (s : String) : String := String.join (s.data.map formEncodeChar)

/-- Join with a separator (JS `Array.prototype.join`). -/
def joinSep (sep : String) : List String → String
  | [] => ""
  | [x] => x
  | x :: y :: xs => x ++ sep ++ joinSep sep (y :: xs)

/-- Serialization of `new URLSearchParams(params).toString()`. -/
def searchParamsToString (ps : List (String × String)) : String :=
  joinSep "&" (ps.map fun kv => formEncode kv.1 ++ "=" ++ formEncode kv.2)

/-- Query-string suffix appended at `src/utils/dependencies.ts:166-169`:
present exactly when `params` exists and has at least one key. -/
def paramSuffix : Option (List (String × String)) → String
  | some ps => if ps.length > 0 then "?" ++ searchParamsToString ps else ""
  | none => ""

/-- URL produced for a matched registry entry: the template with the first
`{name}` replaced by the component name, plus the query-string suffix. -/
def applyTemplate (m : Matcher) (nm : String) : String :=
  replaceFirst m.urlTemplate "{name}" nm ++ paramSuffix m.params

/-- Translated from the matcher loop at `src/utils/dependencies.ts:154-174`:
the first matcher whose regex tests true decides; the component name is
`dep.slice(prefixLength + 1)`; an empty name breaks out of the loop without a
hit (`none`), otherwise the templated URL is produced. -/
def matchRegistry : List Matcher → String → Option String
  | [], _ => none
  | m :: ms, dep =>
    if matcherTest m dep then
      let nm := ofChars (dep.data.drop (m.pfxLen + 1))
      if nm = "" then none
      else some (applyTemplate m nm)
    else matchRegistry ms dep

/-- First matcher whose regex tests true against `dep`, in table order. -/
def firstMatch : List Matcher → String → Option Matcher
  | [], _ => none
  | m :: ms, dep => if matcherTest m dep then some m else firstMatch ms dep

/-- Translated from the default case at `src/utils/dependencies.ts:180-194`:
an `@/registry/` path with at least 3 segments and a non-empty last segment
stores only that segment; everything else is stored verbatim. -/
def defaultRegValue (dep : String) : String :=
  if strStarts dep "@/registry/" then
    let parts := splitChar '/' dep.data
    if parts.length ≥ 3 then
      match parts.getLast? with
      | some lastPart => if !lastPart.isEmpty then ofChars lastPart else dep
      | none => dep
    else dep
  else dep

/-- Outcome of classifying one import literal: skipped, or one value placed
into one of the three buckets. -/
inductive Classified where
  | skip
  | toDeps (p : String)
  | toDev (p : String)
  | toReg (s : String)
deriving Repr, DecidableEq

/-- Classification of an already-NFKC-normalized literal, following
`src/utils/dependencies.ts:122-194` in order: the `lib/utils` ignore, the
`knownThirdPartyLibs` skip, the `dependencies` and `devDependencies` set
tests on the derived package name, the shadcn `components/ui/` capture, the
registry-matcher loop, and the default case. -/
def classifyDep (ds dv : List String) (ms : List Matcher) (dep : String) : Classified :=
  if isIgnoredUtils dep then .skip
  else
    let pkg := getPackageName dep
    if pkg ∈ knownThirdPartyLibs then .skip
    else if pkg ∈ ds then .toDeps pkg
    else if pkg ∈ dv then .toDev pkg
    else
      match shadcnCapture dep with
      | some nm => .toReg nm
      | none =>
        match matchRegistry ms dep with
        | some url => .toReg url
        | none => .toReg (defaultRegValue dep)

/-- Classification of one matched literal, following
`src/utils/dependencies.ts:109-194`: skip empty matches, skip literals
beginning with `.` (checked on the original literal, before normalization),
then NFKC-normalize and classify. -/
def classifyValue (ds dv : List String) (ms : List Matcher) (lit : String) : Classified :=
  if lit = "" then .skip
  else if strStarts lit "." then .skip
  else classifyDep ds dv ms (nfkc lit)

/-- Accumulated buckets (`Set`s in the source, here insertion-ordered
duplicate-free lists). -/
structure Buckets where
  dependencies : List String
  devDependencies : List String
  registryDependencies : List String
deriving Repr, DecidableEq

/-- One literal's effect on the buckets. -/
def classifyLiteral (ds dv : List String) (ms : List Matcher) (b : Buckets) (lit : String) : Buckets :=
  match classifyValue ds dv ms lit with
  | .skip => b
  | .toDeps p => { b with dependencies := addOnce b.dependencies p }
  | .toDev p => { b with devDependencies := addOnce b.devDependencies p }
  | .toReg s => { b with registryDependencies := addOnce b.registryDependencies s }

/-- Inner loop of `getDependencies`: all matched literals of one file. -/
def litsFold (ds dv : List String) (ms : List Matcher) (b : Buckets) (lits : List String) : Buckets :=
  lits.foldl (classifyLiteral ds dv ms) b

/-- Outer loop of `getDependencies`: all scanned files, each represented by
its list of matched import literals. -/
def filesFold (ds dv : List String) (ms : List Matcher) (b : Buckets) (files : List (List String)) : Buckets :=
  files.foldl (litsFold ds dv ms) b

/-- Translated from `src/utils/dependencies.ts` `getDependencies`: scan every
file's matched import literals, classify each, and return the three buckets
deduplicated and sorted (`Array.from(set).sort()`).  `files` stands for the
per-file literal lists the import regex extracts; `registries` is the
(optional, here defaulted-to-empty) `shadcnConfig.registries` table in
`Object.entries` order. -/
def getDependencies (files : List (List String)) (compiledDependencies compiledDevDependencies : List String)
    (registries : List (String × RegistryValue)) : Buckets :=
  let ms := buildMatchers registries
  let b := filesFold compiledDependencies compiledDevDependencies ms ⟨[], [], []⟩ files
  ⟨sortStrings b.dependencies, sortStrings b.devDependencies, sortStrings b.registryDependencies⟩

/-- Literal whose derived package name is in `knownThirdPartyLibs`. -/
def isKnownLit (lit : String) : Bool :=
  decide (getPackageName (nfkc lit) ∈ knownThirdPartyLibs)

/-- Translated from `src/constant/typeMap.ts` `typeMap` (the
`REGISTRY_TYPES` constants inlined), in object-literal order. -/
def typeMapEntries : List (String × String) :=
  [("lib", "registry:lib"),
   ("block", "registry:block"), ("blocks", "registry:block"),
   ("component", "registry:component"), ("components", "registry:component"),
   ("ui", "registry:ui"),
   ("hook", "registry:hook"),
   ("composable", "registry:composable"), ("composables", "registry:composable"),
   ("page", "registry:page"), ("pages", "registry:page"),
   ("file", "registry:file"), ("files", "registry:file"),
   ("theme", "registry:theme"), ("style", "registry:style"),
   ("item", "registry:item")]

/-- JS `segment in typeMap` / `typeMap[segment]` lookup. -/
def lookupType (s : String) : Option String :=
  (typeMapEntries.find? fun e => e.1 == s).map (·.2)

/-- Translated from `src/utils/types.ts` `COMMON_PREFIXES`. -/
def commonPrefixes : List String :=
  ["ui", "lib", "component", "components", "page", "pages", "hook", "composable"]

/-- First pass of `searchTypeInSegments` (src/utils/types.ts:87-92), on the
reversed segment list: the first segment that is non-empty, in
`COMMON_PREFIXES` and in `typeMap` decides. -/
def scanCommon : List String → Option String
  | [] => none
  | s :: rest =>
    if s ≠ "" ∧ s ∈ commonPrefixes ∧ (lookupType s).isSome then
      lookupType s
    else scanCommon rest

/-- Second pass of `searchTypeInSegments` (src/utils/types.ts:96-104), on the
reversed segment list: the first non-empty segment with a truthy (non-empty)
`typeMap` value decides. -/
def scanAll : List String → Option String
  | [] => none
  | s :: rest =>
    if s ≠ "" then
      match lookupType s with
      | some t => if t ≠ "" then some t else scanAll rest
      | none => scanAll rest
    else scanAll rest

/-- Translated from `src/utils/types.ts` `searchTypeInSegments`: the
common-prefix pass, then the full right-to-left pass, then the fallback on
the first segment (synthesizing `registry:<segment>` when unmapped; an empty
segment list yields the JS template-literal result `registry:undefined`). -/
def searchTypeInSegments (segments : List String) : String :=
  match scanCommon segments.reverse with
  | some t => t
  | none =>
    match scanAll segments.reverse with
    | some t => t
    | none =>
      match segments.head? with
      | none => "registry:undefined"
      | some f =>
        match lookupType f with
        | some t => if f ≠ "" then t else "registry:" ++ f
        | none => "registry:" ++ f

/-- Non-empty `/`-separated segments of a path
(`path.split(sep).filter(Boolean)` on a POSIX separator). -/
def pathSegments (path : String) : List String :=
  ((splitChar '/' path.data).map ofChars).filter (fun s => decide (s ≠ ""))

/-- Translated from `src/utils/types.ts` `getRegistryType` (the
`typeCache` memoization is observationally transparent and omitted): empty
input or no segments give `REGISTRY_TYPES.ITEM`, otherwise
`searchTypeInSegments` decides. -/
def getRegistryType (path : String) : String :=
  if path = "" then "registry:item"
  else
    let segments := pathSegments path
    if segments = [] then "registry:item"
    else searchTypeInSegments segments

/-- Deepest (right-most) non-empty segment present in the `typeMap` table. -/
def deepestMapped (segments : List String) : Option String :=
  segments.reverse.find? (fun s => decide (s ≠ "" ∧ (lookupType s).isSome))

/-- Characters of `cs` with the trailing run satisfying `p` removed. -/
def dropTrailing (p : Char → Bool) (cs : List Char) : List Char :=
  (cs.reverse.dropWhile p).reverse

/-- Final `/`-free component of a character list. -/
def afterLastSlash (cs : List Char) : List Char :=
  (cs.reverse.takeWhile (fun c => c != '/')).reverse

/-- Node `path.basename` on POSIX paths: trailing separators are stripped,
then the part after the last separator is returned (a path consisting only
of separators yields `/`, the empty path yields itself). -/
def basename (s : String) : String :=
  let cs := dropTrailing (· == '/') s.data
  if cs = [] then (if s.data = [] then "" else "/")
  else ofChars (afterLastSlash cs)

/-- JS `fileName.includes('.') ? fileName.slice(0, fileName.lastIndexOf('.'))
: fileName` from `src/core/registry.name.ts:49-51`. -/
def stripExt (fileName : String) : String :=
  if '.' ∈ fileName.data then
    ofChars (((fileName.data.reverse.dropWhile (fun c => c != '.')).drop 1).reverse)
  else fileName

/-- JS `toLowerCase`, modelled on ASCII (every input in this development is
ASCII). -/
def lowerStr (s : String) : String := ofChars (s.data.map Char.toLower)

/-- Translated from `src/core/registry.name.ts` `getComponentName`: empty
file set or an `index.*` file give the directory basename; a single file
gives its extension-stripped name when that differs from the directory name,
is longer than 2 characters and is not a case-variant of the directory name;
multiple files give the directory basename. -/
def getComponentName (dir : String) (filesInDir : List String) : String :=
  if filesInDir = [] then basename dir
  else if filesInDir.any (fun f => strStarts (basename f) "index.") then basename dir
  else
    match filesInDir with
    | [singleFile] =>
      if singleFile = "" then basename dir
      else
        let fileName := basename singleFile
        let nameWithoutExt := stripExt fileName
        let dirName := basename dir
        if nameWithoutExt ≠ dirName ∧ nameWithoutExt.data.length > 2 then
          if lowerStr nameWithoutExt = lowerStr dirName then dirName
          else nameWithoutExt
        else dirName
    | _ => basename dir

/-- Statement of the spec's single-file naming rule in the spec's own order
(claim C9): strip the extension; a case-insensitive match of the directory
basename returns the directory basename; otherwise a name that differs from
the directory basename and is longer than 2 characters wins; otherwise the
directory basename. -/
def resolveNameSingleSpec (dir f : String) : String :=
  let n := stripExt (basename f)
  let d := basename dir
  if lowerStr n = lowerStr d then d
  else if n ≠ d ∧ n.data.length > 2 then n
  else d

/-- State of the project's `package.json` as observed by
`src/core/registry.config.ts:47-57`: absent (`fs.existsSync` false), present
but failing `JSON.parse` (the `catch` branch), or well-formed with the key
lists of its `dependencies` and `devDependencies` objects. -/
inductive ManifestFile where
  | missing
  | malformed
  | wellFormed (deps devDeps : List String)
deriving Repr, DecidableEq

/-- Outcome of reading the dependency manifest: the two dependency lists and
whether the `console.warn` in the `catch` branch ran. -/
structure PkgDepsResult where
  deps : List String
  devDeps : List String
  warned : Bool
deriving Repr, DecidableEq

/-- Translated from `src/core/registry.config.ts:42-57`: a missing
`package.json` leaves the lists empty silently; a malformed one warns and
leaves them empty; a well-formed one yields its keys. -/
def readPackageDeps : ManifestFile → PkgDepsResult
  | .missing => ⟨[], [], false⟩
  | .malformed => ⟨[], [], true⟩
  | .wellFormed d dd => ⟨d, dd, false⟩

/-- Translated from `src/core/registry.config.ts` `loadProjectConfig`,
restricted to its control flow around the dependency manifest: a missing
`components.json` throws (`Except.error` with the source's message); any
state of `package.json` is non-fatal. -/
def loadProjectConfigDeps (componentsJsonFound : Bool) (manifest : ManifestFile) :
    Except String PkgDepsResult :=
  if !componentsJsonFound then
    .error "components.json not found, skipping component discovery."
  else .ok (readPackageDeps manifest)

/-- Sorted-ascending relation used for the output buckets. -/
def SLe (a b : String) : Prop := strLe a b = true

theorem mem_addOnce {l : List String} {s x : String} :
    x ∈ addOnce l s ↔ x ∈ l ∨ x = s := by
  unfold addOnce
  split
  · rename_i h
    exact ⟨Or.inl, fun hx => hx.elim id (fun e => e ▸ h)⟩
  · simp [List.mem_append]

theorem nodup_addOnce {l : List String} {s : String} (h : l.Nodup) :
    (addOnce l s).Nodup := by
  unfold addOnce
  split
  · exact h
  · rename_i hn
    simp [List.nodup_append, h, hn]

theorem addOnce_addOnce (l : List String) (s : String) :
    addOnce (addOnce l s) s = addOnce l s := by
  have h : s ∈ addOnce l s := mem_addOnce.mpr (Or.inr rfl)
  show (if s ∈ addOnce l s then addOnce l s else addOnce l s ++ [s]) = addOnce l s
  rw [if_pos h]

theorem perm_insertSorted (x : String) (l : List String) :
    List.Perm (insertSorted x l) (x :: l) := by
  induction l with
  | nil => exact List.Perm.refl _
  | cons y ys ih =>
    unfold insertSorted
    split
    · exact List.Perm.refl _
    · exact (ih.cons y).trans (List.Perm.swap x y ys)

theorem perm_sortStrings (l : List String) : List.Perm (sortStrings l) l := by
  induction l with
  | nil => exact List.Perm.refl _
  | cons x xs ih =>
    have : sortStrings (x :: xs) = insertSorted x (sortStrings xs) := rfl
    rw [this]
    exact (perm_insertSorted x (sortStrings xs)).trans (ih.cons x)

theorem mem_sortStrings {l : List String} {x : String} :
    x ∈ sortStrings l ↔ x ∈ l :=
  (perm_sortStrings l).mem_iff

theorem nodup_sortStrings {l : List String} (h : l.Nodup) :
    (sortStrings l).Nodup :=
  (perm_sortStrings l).nodup_iff.mpr h

theorem mem_insertSorted {x z : String} {l : List String} :
    z ∈ insertSorted x l ↔ z = x ∨ z ∈ l := by
  rw [(perm_insertSorted x l).mem_iff, List.mem_cons]

theorem charsLe_total (as : List Char) : ∀ bs, charsLe as bs = true ∨ charsLe bs as = true := by
  induction as with
  | nil => intro bs; left; rfl
  | cons a as ih =>
    intro bs
    cases bs with
    | nil => right; rfl
    | cons b bs =>
      simp only [charsLe]
      rcases Nat.lt_trichotomy a.toNat b.toNat with h | h | h
      · left; simp [h]
      · simp [h, Nat.lt_irrefl]
        exact ih bs
      · right; simp [h, Nat.lt_asymm h]

theorem charsLe_trans (as : List Char) :
    ∀ bs cs, charsLe as bs = true → charsLe bs cs = true → charsLe as cs = true := by
  induction as with
  | nil => intro bs cs _ _; rfl
  | cons a as ih =>
    intro bs cs h1 h2
    cases bs with
    | nil => simp [charsLe] at h1
    | cons b bs =>
      cases cs with
      | nil => simp [charsLe] at h2
      | cons c cs =>
        simp only [charsLe] at h1 h2 ⊢
        rcases Nat.lt_trichotomy a.toNat b.toNat with hab | hab | hab
        · rcases Nat.lt_trichotomy b.toNat c.toNat with hbc | hbc | hbc
          · simp [hab.trans hbc]
          · simp [hbc ▸ hab]
          · simp [Nat.lt_asymm hbc, hbc] at h2
        · rcases Nat.lt_trichotomy b.toNat c.toNat with hbc | hbc | hbc
          · simp [hab ▸ hbc]
          · have hac : a.toNat = c.toNat := hab.trans hbc
            simp only [hab, Nat.lt_irrefl, if_false] at h1
            simp only [hbc, Nat.lt_irrefl, if_false] at h2
            simp only [hac, Nat.lt_irrefl, if_false]
            exact ih bs cs h1 h2
          · simp [Nat.lt_asymm hbc, hbc] at h2
        · simp [Nat.lt_asymm hab, hab] at h1

theorem strLe_total (a b : String) : SLe a b ∨ SLe b a := charsLe_total a.data b.data

theorem strLe_trans {a b c : String} (h1 : SLe a b) (h2 : SLe b c) : SLe a c :=
  charsLe_trans a.data b.data c.data h1 h2

theorem pairwise_insertSorted {x : String} {l : List String}
    (h : l.Pairwise SLe) : (insertSorted x l).Pairwise SLe := by
  induction l with
  | nil => simp [insertSorted]
  | cons y ys ih =>
    rcases List.pairwise_cons.mp h with ⟨hy, hys⟩
    have hunf : insertSorted x (y :: ys) =
        if strLe x y then x :: y :: ys else y :: insertSorted x ys := rfl
    rw [hunf]
    by_cases hxy : strLe x y = true
    · rw [if_pos hxy]
      refine List.pairwise_cons.mpr ⟨?_, h⟩
      intro z hz
      rcases List.mem_cons.mp hz with rfl | hz
      · exact hxy
      · exact strLe_trans hxy (hy z hz)
    · rw [if_neg hxy]
      refine List.pairwise_cons.mpr ⟨?_, ih hys⟩
      intro z hz
      rcases mem_insertSorted.mp hz with hzx | hz
      · subst hzx
        rcases strLe_total z y with ht | ht
        · exact absurd ht hxy
        · exact ht
      · exact hy z hz

theorem pairwise_sortStrings (l : List String) : (sortStrings l).Pairwise SLe := by
  induction l with
  | nil => simp [sortStrings]
  | cons x xs ih => exact pairwise_insertSorted ih

theorem classifyLiteral_of_skip {ds dv : List String} {ms : List Matcher}
    {b : Buckets} {lit : String} (h : classifyValue ds dv ms lit = .skip) :
    classifyLiteral ds dv ms b lit = b := by
  unfold classifyLiteral
  rw [h]

theorem mem_deps_classifyLiteral {ds dv : List String} {ms : List Matcher}
    {b : Buckets} {lit x : String} :
    x ∈ (classifyLiteral ds dv ms b lit).dependencies ↔
      classifyValue ds dv ms lit = .toDeps x ∨ x ∈ b.dependencies := by
  unfold classifyLiteral
  cases h : classifyValue ds dv ms lit <;>
    simp [mem_addOnce, eq_comm, or_comm]

theorem mem_dev_classifyLiteral {ds dv : List String} {ms : List Matcher}
    {b : Buckets} {lit x : String} :
    x ∈ (classifyLiteral ds dv ms b lit).devDependencies ↔
      classifyValue ds dv ms lit = .toDev x ∨ x ∈ b.devDependencies := by
  unfold classifyLiteral
  cases h : classifyValue ds dv ms lit <;>
    simp [mem_addOnce, eq_comm, or_comm]

theorem mem_reg_classifyLiteral {ds dv : List String} {ms : List Matcher}
    {b : Buckets} {lit x : String} :
    x ∈ (classifyLiteral ds dv ms b lit).registryDependencies ↔
      classifyValue ds dv ms lit = .toReg x ∨ x ∈ b.registryDependencies := by
  unfold classifyLiteral
  cases h : classifyValue ds dv ms lit <;>
    simp [mem_addOnce, eq_comm, or_comm]

theorem litsFold_cons (ds dv : List String) (ms : List Matcher)
    (b : Buckets) (l : String) (ls : List String) :
    litsFold ds dv ms b (l :: ls) = litsFold ds dv ms (classifyLiteral ds dv ms b l) ls := rfl

theorem filesFold_cons (ds dv : List String) (ms : List Matcher)
    (b : Buckets) (f : List String) (fs : List (List String)) :
    filesFold ds dv ms b (f :: fs) = filesFold ds dv ms (litsFold ds dv ms b f) fs := rfl

theorem mem_deps_litsFold {ds dv : List String} {ms : List Matcher} {x : String} :
    ∀ (lits : List String) (b : Buckets),
      x ∈ (litsFold ds dv ms b lits).dependencies ↔
        (∃ lit ∈ lits, classifyValue ds dv ms lit = .toDeps x) ∨ x ∈ b.dependencies := by
  intro lits
  induction lits with
  | nil => intro b; simp [litsFold]
  | cons l ls ih =>
    intro b
    rw [litsFold_cons, ih, mem_deps_classifyLiteral]
    simp only [List.exists_mem_cons_iff]
    constructor
    · rintro (h | h | h)
      · exact Or.inl (Or.inr h)
      · exact Or.inl (Or.inl h)
      · exact Or.inr h
    · rintro ((h | h) | h)
      · exact Or.inr (Or.inl h)
      · exact Or.inl h
      · exact Or.inr (Or.inr h)

theorem mem_dev_litsFold {ds dv : List String} {ms : List Matcher} {x : String} :
    ∀ (lits : List String) (b : Buckets),
      x ∈ (litsFold ds dv ms b lits).devDependencies ↔
        (∃ lit ∈ lits, classifyValue ds dv ms lit = .toDev x) ∨ x ∈ b.devDependencies := by
  intro lits
  induction lits with
  | nil => intro b; simp [litsFold]
  | cons l ls ih =>
    intro b
    rw [litsFold_cons, ih, mem_dev_classifyLiteral]
    simp only [List.exists_mem_cons_iff]
    constructor
    · rintro (h | h | h)
      · exact Or.inl (Or.inr h)
      · exact Or.inl (Or.inl h)
      · exact Or.inr h
    · rintro ((h | h) | h)
      · exact Or.inr (Or.inl h)
      · exact Or.inl h
      · exact Or.inr (Or.inr h)

theorem mem_reg_litsFold {ds dv : List String} {ms : List Matcher} {x : String} :
    ∀ (lits : List String) (b : Buckets),
      x ∈ (litsFold ds dv ms b lits).registryDependencies ↔
        (∃ lit ∈ lits, classifyValue ds dv ms lit = .toReg x) ∨ x ∈ b.registryDependencies := by
  intro lits
  induction lits with
  | nil => intro b; simp [litsFold]
  | cons l ls ih =>
    intro b
    rw [litsFold_cons, ih, mem_reg_classifyLiteral]
    simp only [List.exists_mem_cons_iff]
    constructor
    · rintro (h | h | h)
      · exact Or.inl (Or.inr h)
      · exact Or.inl (Or.inl h)
      · exact Or.inr h
    · rintro ((h | h) | h)
      · exact Or.inr (Or.inl h)
      · exact Or.inl h
      · exact Or.inr (Or.inr h)

theorem mem_deps_filesFold {ds dv : List String} {ms : List Matcher} {x : String} :
    ∀ (files : List (List String)) (b : Buckets),
      x ∈ (filesFold ds dv ms b files).dependencies ↔
        (∃ f ∈ files, ∃ lit ∈ f, classifyValue ds dv ms lit = .toDeps x) ∨ x ∈ b.dependencies := by
  intro files
  induction files with
  | nil => intro b; simp [filesFold]
  | cons f fs ih =>
    intro b
    rw [filesFold_cons, ih, mem_deps_litsFold]
    simp only [List.exists_mem_cons_iff]
    constructor
    · rintro (h | h | h)
      · exact Or.inl (Or.inr h)
      · exact Or.inl (Or.inl h)
      · exact Or.inr h
    · rintro ((h | h) | h)
      · exact Or.inr (Or.inl h)
      · exact Or.inl h
      · exact Or.inr (Or.inr h)

theorem mem_dev_filesFold {ds dv : List String} {ms : List Matcher} {x : String} :
    ∀ (files : List (List String)) (b : Buckets),
      x ∈ (filesFold ds dv ms b files).devDependencies ↔
        (∃ f ∈ files, ∃ lit ∈ f, classifyValue ds dv ms lit = .toDev x) ∨ x ∈ b.devDependencies := by
  intro files
  induction files with
  | nil => intro b; simp [filesFold]
  | cons f fs ih =>
    intro b
    rw [filesFold_cons, ih, mem_dev_litsFold]
    simp only [List.exists_mem_cons_iff]
    constructor
    · rintro (h | h | h)
      · exact Or.inl (Or.inr h)
      · exact Or.inl (Or.inl h)
      · exact Or.inr h
    · rintro ((h | h) | h)
      · exact Or.inr (Or.inl h)
      · exact Or.inl h
      · exact Or.inr (Or.inr h)

theorem mem_reg_filesFold {ds dv : List String} {ms : List Matcher} {x : String} :
    ∀ (files : List (List String)) (b : Buckets),
      x ∈ (filesFold ds dv ms b files).registryDependencies ↔
        (∃ f ∈ files, ∃ lit ∈ f, classifyValue ds dv ms lit = .toReg x) ∨ x ∈ b.registryDependencies := by
  intro files
  induction files with
  | nil => intro b; simp [filesFold]
  | cons f fs ih =>
    intro b
    rw [filesFold_cons, ih, mem_reg_litsFold]
    simp only [List.exists_mem_cons_iff]
    constructor
    · rintro (h | h | h)
      · exact Or.inl (Or.inr h)
      · exact Or.inl (Or.inl h)
      · exact Or.inr h
    · rintro ((h | h) | h)
      · exact Or.inr (Or.inl h)
      · exact Or.inl h
      · exact Or.inr (Or.inr h)

theorem mem_getDependencies_deps {files : List (List String)}
    {ds dv : List String} {regs : List (String × RegistryValue)} {x : String} :
    x ∈ (getDependencies files ds dv regs).dependencies ↔
      ∃ f ∈ files, ∃ lit ∈ f, classifyValue ds dv (buildMatchers regs) lit = .toDeps x := by
  unfold getDependencies
  rw [mem_sortStrings, mem_deps_filesFold]
  simp

theorem mem_getDependencies_dev {files : List (List String)}
    {ds dv : List String} {regs : List (String × RegistryValue)} {x : String} :
    x ∈ (getDependencies files ds dv regs).devDependencies ↔
      ∃ f ∈ files, ∃ lit ∈ f, classifyValue ds dv (buildMatchers regs) lit = .toDev x := by
  unfold getDependencies
  rw [mem_sortStrings, mem_dev_filesFold]
  simp

theorem mem_getDependencies_reg {files : List (List String)}
    {ds dv : List String} {regs : List (String × RegistryValue)} {x : String} :
    x ∈ (getDependencies files ds dv regs).registryDependencies ↔
      ∃ f ∈ files, ∃ lit ∈ f, classifyValue ds dv (buildMatchers regs) lit = .toReg x := by
  unfold getDependencies
  rw [mem_sortStrings, mem_reg_filesFold]
  simp

theorem classifyValue_toDeps {ds dv : List String} {ms : List Matcher} {lit p : String}
    (h0 : lit ≠ "") (h1 : strStarts lit "." = false)
    (h2 : isIgnoredUtils (nfkc lit) = false) (h3 : getPackageName (nfkc lit) = p)
    (h4 : p ∉ knownThirdPartyLibs) (h5 : p ∈ ds) :
    classifyValue ds dv ms lit = .toDeps p := by
  simp [classifyValue, classifyDep, h0, h1, h2, h3, h4, h5]

theorem classifyValue_toDev_inv {ds dv : List String} {ms : List Matcher} {lit x : String}
    (h : classifyValue ds dv ms lit = .toDev x) :
    x ∈ dv ∧ x ∉ ds ∧ x ∉ knownThirdPartyLibs := by
  simp only [classifyValue, classifyDep] at h
  split_ifs at h with h0 h1 h2 h3 h4 h5
  · injection h with hx
    subst hx
    exact ⟨h5, h4, h3⟩
  · split at h
    · simp at h
    · split at h <;> simp at h

theorem classifyValue_skip_of_known {ds dv : List String} {ms : List Matcher} {lit : String}
    (h : getPackageName (nfkc lit) ∈ knownThirdPartyLibs) :
    classifyValue ds dv ms lit = .skip := by
  simp only [classifyValue, classifyDep]
  split_ifs <;> rfl

theorem classifyValue_skip_of_rel {ds dv : List String} {ms : List Matcher} {lit : String}
    (h : strStarts lit "." = true) :
    classifyValue ds dv ms lit = .skip := by
  simp only [classifyValue]
  split_ifs <;> rfl

theorem classifyValue_toReg_of_match {ds dv : List String} {ms : List Matcher} {lit url : String}
    (h0 : lit ≠ "") (h1 : strStarts lit "." = false)
    (h2 : isIgnoredUtils (nfkc lit) = false)
    (h4 : getPackageName (nfkc lit) ∉ knownThirdPartyLibs)
    (h5 : getPackageName (nfkc lit) ∉ ds) (h6 : getPackageName (nfkc lit) ∉ dv)
    (h7 : shadcnCapture (nfkc lit) = none)
    (h8 : matchRegistry ms (nfkc lit) = some url) :
    classifyValue ds dv ms lit = .toReg url := by
  simp [classifyValue, classifyDep, h0, h1, h2, h4, h5, h6, h7, h8]

theorem classifyValue_empty_toReg {ms : List Matcher} {lit : String}
    (h0 : lit ≠ "") (h1 : strStarts lit "." = false)
    (h2 : isIgnoredUtils (nfkc lit) = false)
    (h4 : getPackageName (nfkc lit) ∉ knownThirdPartyLibs) :
    ∃ s, classifyValue [] [] ms lit = .toReg s := by
  rcases hsc : shadcnCapture (nfkc lit) with _ | nm
  · rcases hmr : matchRegistry ms (nfkc lit) with _ | url
    · exact ⟨defaultRegValue (nfkc lit),
        by simp [classifyValue, classifyDep, h0, h1, h2, h4, hsc, hmr]⟩
    · exact ⟨url, by simp [classifyValue, classifyDep, h0, h1, h2, h4, hsc, hmr]⟩
  · exact ⟨nm, by simp [classifyValue, classifyDep, h0, h1, h2, h4, hsc]⟩

theorem classifyValue_nfkc_eq {ds dv : List String} {ms : List Matcher} {a b : String}
    (hn : nfkc a = nfkc b) (ha0 : a ≠ "") (hb0 : b ≠ "")
    (ha1 : strStarts a "." = false) (hb1 : strStarts b "." = false) :
    classifyValue ds dv ms a = classifyValue ds dv ms b := by
  simp only [classifyValue]
  rw [if_neg ha0, if_neg hb0, if_neg (by simp [ha1]), if_neg (by simp [hb1]), hn]

theorem classifyLiteral_twice {ds dv : List String} {ms : List Matcher}
    {b : Buckets} {lit lit2 : String}
    (h : classifyValue ds dv ms lit2 = classifyValue ds dv ms lit) :
    classifyLiteral ds dv ms (classifyLiteral ds dv ms b lit) lit2 =
      classifyLiteral ds dv ms b lit := by
  cases b with
  | mk d v r =>
    unfold classifyLiteral
    rw [h]
    cases hv : classifyValue ds dv ms lit <;> simp [addOnce_addOnce]

theorem litsFold_filter {ds dv : List String} {ms : List Matcher} {p : String → Bool}
    (hp : ∀ lit, p lit = false → classifyValue ds dv ms lit = .skip) :
    ∀ (lits : List String) (b : Buckets),
      litsFold ds dv ms b (lits.filter p) = litsFold ds dv ms b lits := by
  intro lits
  induction lits with
  | nil => intro b; rfl
  | cons l ls ih =>
    intro b
    by_cases h : p l = true
    · rw [show (l :: ls).filter p = l :: ls.filter p from by simp [List.filter_cons, h],
        litsFold_cons, litsFold_cons, ih]
    · have hskip := hp l (by simpa using h)
      rw [show (l :: ls).filter p = ls.filter p from by simp [List.filter_cons, h],
        ih, litsFold_cons, classifyLiteral_of_skip hskip]

theorem filesFold_filter {ds dv : List String} {ms : List Matcher} {p : String → Bool}
    (hp : ∀ lit, p lit = false → classifyValue ds dv ms lit = .skip) :
    ∀ (files : List (List String)) (b : Buckets),
      filesFold ds dv ms b (files.map fun f => f.filter p) = filesFold ds dv ms b files := by
  intro files
  induction files with
  | nil => intro b; rfl
  | cons f fs ih =>
    intro b
    rw [List.map_cons, filesFold_cons, filesFold_cons, litsFold_filter hp, ih]

theorem getDependencies_filter {files : List (List String)} {ds dv : List String}
    {regs : List (String × RegistryValue)} {p : String → Bool}
    (hp : ∀ lit, p lit = false → classifyValue ds dv (buildMatchers regs) lit = .skip) :
    getDependencies (files.map fun f => f.filter p) ds dv regs =
      getDependencies files ds dv regs := by
  simp only [getDependencies]
  rw [filesFold_filter hp]

theorem nodup_classifyLiteral {ds dv : List String} {ms : List Matcher} {b : Buckets} {lit : String}
    (h1 : b.dependencies.Nodup) (h2 : b.devDependencies.Nodup)
    (h3 : b.registryDependencies.Nodup) :
    (classifyLiteral ds dv ms b lit).dependencies.Nodup ∧
      (classifyLiteral ds dv ms b lit).devDependencies.Nodup ∧
      (classifyLiteral ds dv ms b lit).registryDependencies.Nodup := by
  unfold classifyLiteral
  cases classifyValue ds dv ms lit with
  | skip => exact ⟨h1, h2, h3⟩
  | toDeps p => exact ⟨nodup_addOnce h1, h2, h3⟩
  | toDev p => exact ⟨h1, nodup_addOnce h2, h3⟩
  | toReg s => exact ⟨h1, h2, nodup_addOnce h3⟩

theorem nodup_litsFold {ds dv : List String} {ms : List Matcher} :
    ∀ (lits : List String) (b : Buckets),
      b.dependencies.Nodup → b.devDependencies.Nodup → b.registryDependencies.Nodup →
      (litsFold ds dv ms b lits).dependencies.Nodup ∧
        (litsFold ds dv ms b lits).devDependencies.Nodup ∧
        (litsFold ds dv ms b lits).registryDependencies.Nodup := by
  intro lits
  induction lits with
  | nil => intro b h1 h2 h3; exact ⟨h1, h2, h3⟩
  | cons l ls ih =>
    intro b h1 h2 h3
    rw [litsFold_cons]
    obtain ⟨g1, g2, g3⟩ := @nodup_classifyLiteral ds dv ms b l h1 h2 h3
    exact ih _ g1 g2 g3

theorem nodup_filesFold {ds dv : List String} {ms : List Matcher} :
    ∀ (files : List (List String)) (b : Buckets),
      b.dependencies.Nodup → b.devDependencies.Nodup → b.registryDependencies.Nodup →
      (filesFold ds dv ms b files).dependencies.Nodup ∧
        (filesFold ds dv ms b files).devDependencies.Nodup ∧
        (filesFold ds dv ms b files).registryDependencies.Nodup := by
  intro files
  induction files with
  | nil => intro b h1 h2 h3; exact ⟨h1, h2, h3⟩
  | cons f fs ih =>
    intro b h1 h2 h3
    rw [filesFold_cons]
    obtain ⟨g1, g2, g3⟩ := nodup_litsFold f b h1 h2 h3
    exact ih _ g1 g2 g3

theorem matchRegistry_eq_of_firstMatch {ms : List Matcher} {dep : String} {m : Matcher}
    (h : firstMatch ms dep = some m) :
    matchRegistry ms dep =
      (if ofChars (dep.data.drop (m.pfxLen + 1)) = "" then none
       else some (applyTemplate m (ofChars (dep.data.drop (m.pfxLen + 1))))) := by
  induction ms with
  | nil => simp [firstMatch] at h
  | cons a rest ih =>
    by_cases ht : matcherTest a dep = true
    · have ha : a = m := by simpa [firstMatch, ht] using h
      subst ha
      simp [matchRegistry, ht]
    · simp only [firstMatch, ht, if_false] at h
      simp only [matchRegistry, ht, if_false]
      exact ih h

theorem lookupType_ne_empty {s t : String} (h : lookupType s = some t) : t ≠ "" := by
  unfold lookupType at h
  rcases Option.map_eq_some'.mp h with ⟨e, he, rfl⟩
  have hall : ∀ e ∈ typeMapEntries, e.2 ≠ "" := by decide
  exact hall e (List.mem_of_find?_eq_some he)

theorem scanCommon_eq {l : List String} {s : String}
    (hf : l.find? (fun s => decide (s ≠ "" ∧ (lookupType s).isSome)) = some s)
    (hc : s ∈ commonPrefixes) : scanCommon l = lookupType s := by
  induction l with
  | nil => simp at hf
  | cons a rest ih =>
    by_cases hp : (decide (a ≠ "" ∧ (lookupType a).isSome)) = true
    · simp only [List.find?_cons, hp] at hf
      obtain rfl : a = s := by injection hf
      have hprop := of_decide_eq_true hp
      rw [show scanCommon (a :: rest) =
        if a ≠ "" ∧ a ∈ commonPrefixes ∧ (lookupType a).isSome then lookupType a
        else scanCommon rest from rfl]
      rw [if_pos ⟨hprop.1, hc, hprop.2⟩]
    · have hpf : (decide (a ≠ "" ∧ (lookupType a).isSome)) = false := by simpa using hp
      simp only [List.find?_cons, hpf] at hf
      have hnprop := of_decide_eq_false hpf
      rw [show scanCommon (a :: rest) =
        if a ≠ "" ∧ a ∈ commonPrefixes ∧ (lookupType a).isSome then lookupType a
        else scanCommon rest from rfl]
      rw [if_neg (fun hcond => hnprop ⟨hcond.1, hcond.2.2⟩)]
      exact ih hf

theorem getRegistryType_of_deepestMapped_common {path s t : String}
    (hd : deepestMapped (pathSegments path) = some s) (hc : s ∈ commonPrefixes)
    (hl : lookupType s = some t) : getRegistryType path = t := by
  have hscan : scanCommon (pathSegments path).reverse = lookupType s :=
    scanCommon_eq hd hc
  have hseg : pathSegments path ≠ [] := by
    intro he
    rw [deepestMapped, he] at hd
    simp at hd
  have hpath : path ≠ "" := by
    intro he
    subst he
    exact hseg (by decide)
  rw [show getRegistryType path =
    (if path = "" then "registry:item" else
      if pathSegments path = [] then "registry:item"
      else searchTypeInSegments (pathSegments path)) from rfl]
  rw [if_neg hpath, if_neg hseg]
  rw [show searchTypeInSegments (pathSegments path) =
    (match scanCommon (pathSegments path).reverse with
     | some t => t
     | none =>
       match scanAll (pathSegments path).reverse with
       | some t => t
       | none =>
         match (pathSegments path).head? with
         | none => "registry:undefined"
         | some f =>
           match lookupType f with
           | some t => if f ≠ "" then t else "registry:" ++ f
           | none => "registry:" ++ f) from rfl]
  rw [hscan, hl]

theorem getComponentName_single_eq_spec (dir f : String)
    (hidx : strStarts (basename f) "index." = false) :
    getComponentName dir [f] = resolveNameSingleSpec dir f := by
  have hstep : getComponentName dir [f] =
      if ([f].any fun g => strStarts (basename g) "index.") then basename dir
      else if f = "" then basename dir
      else
        (if stripExt (basename f) ≠ basename dir ∧ (stripExt (basename f)).data.length > 2 then
          if lowerStr (stripExt (basename f)) = lowerStr (basename dir) then basename dir
          else stripExt (basename f)
        else basename dir) := rfl
  have hspec : resolveNameSingleSpec dir f =
      if lowerStr (stripExt (basename f)) = lowerStr (basename dir) then basename dir
      else if stripExt (basename f) ≠ basename dir ∧ (stripExt (basename f)).data.length > 2 then
        stripExt (basename f)
      else basename dir := rfl
  rw [hstep, hspec, if_neg (by simp [hidx])]
  by_cases hf : f = ""
  · subst hf
    rw [if_pos rfl]
    by_cases hld : lowerStr (stripExt (basename "")) = lowerStr (basename dir)
    · rw [if_pos hld]
    · rw [if_neg hld, if_neg (fun hcond => absurd hcond.2 (by decide))]
  · rw [if_neg hf]
    by_cases hld : lowerStr (stripExt (basename f)) = lowerStr (basename dir)
    · simp only [if_pos hld]
      split_ifs <;> rfl
    · simp only [if_neg hld]

/-- C1 counterexample: the claim fails as stated.  With `projectDeps =
["vue"]`, the scanned literal `vue` has derived package name `vue ∈
projectDeps`, yet the dependencies bucket comes back empty, because the
`knownThirdPartyLibs` skip at dependencies.ts:130 fires before the
`projectDeps` test; and with `projectDeps = ["card"]` the string `card`
lands in `registryDependencies` (via the `components/ui/card` capture of a
different literal), contradicting "never in registryDependencies". -/
theorem c1_counterexample :
    getPackageName (nfkc "vue") = "vue" ∧ "vue" ∈ (["vue"] : List String) ∧
    (getDependencies [["vue"]] ["vue"] [] []).dependencies = [] ∧
    "card" ∈ (["card"] : List String) ∧
    "card" ∈ (getDependencies [["card", "components/ui/card"]] ["card"] [] []).registryDependencies := by
  decide

/-- C1 (amended): for every package name `p` in `projectDeps` that is not in
the fixed `knownThirdPartyLibs` list, every scanned literal that survives the
earlier skips (non-empty, not beginning with `.`, not `lib/utils`-ignored)
and whose derived package name is `p` puts `p` into the dependencies bucket,
and `p` never appears in the devDependencies bucket; the same string may
still enter registryDependencies through a different literal. -/
theorem c1_amended (files : List (List String)) (ds dv : List String)
    (regs : List (String × RegistryValue)) (p : String) (f : List String) (lit : String)
    (hf : f ∈ files) (hl : lit ∈ f) (h0 : lit ≠ "") (h1 : strStarts lit "." = false)
    (h2 : isIgnoredUtils (nfkc lit) = false) (h3 : getPackageName (nfkc lit) = p)
    (h4 : p ∉ knownThirdPartyLibs) (h5 : p ∈ ds) :
    p ∈ (getDependencies files ds dv regs).dependencies ∧
      p ∉ (getDependencies files ds dv regs).devDependencies := by
  constructor
  · exact mem_getDependencies_deps.mpr ⟨f, hf, lit, hl, classifyValue_toDeps h0 h1 h2 h3 h4 h5⟩
  · intro hmem
    obtain ⟨f2, _, lit2, _, hcv⟩ := mem_getDependencies_dev.mp hmem
    exact (classifyValue_toDev_inv hcv).2.1 h5

/-- C1 witness: the amended theorem applied at a concrete input. -/
theorem c1_amended_witness :
    "lodash" ∈ (getDependencies [["lodash/fp"]] ["lodash"] ["x"] []).dependencies ∧
      "lodash" ∉ (getDependencies [["lodash/fp"]] ["lodash"] ["x"] []).devDependencies :=
  c1_amended [["lodash/fp"]] ["lodash"] ["x"] [] "lodash" ["lodash/fp"] "lodash/fp"
    (by decide) (by decide) (by decide) (by decide) (by decide) (by decide) (by decide) (by decide)

/-- C2 counterexample: the claim fails as stated.  The literal `vue` (derived
package name `vue`, in the fixed list and in the dependency set) is itself
skipped, but the string `vue` still appears in the registryDependencies
bucket, put there by the different literal `components/ui/vue`. -/
theorem c2_counterexample :
    getPackageName (nfkc "vue") = "vue" ∧ "vue" ∈ knownThirdPartyLibs ∧
    "vue" ∈ (["vue"] : List String) ∧
    "vue" ∈ (getDependencies [["vue", "components/ui/vue"]] ["vue"] [] []).registryDependencies := by
  decide

/-- C2 (amended): every import literal whose derived package name is in the
fixed `knownThirdPartyLibs` list is skipped and contributes nothing to any
bucket, even when that package name is in the given dependency or
devDependency sets: removing all such literals from the scanned files leaves
the output of `getDependencies` unchanged (an equal string may still enter a
bucket through a different literal). -/
theorem c2_amended (files : List (List String)) (ds dv : List String)
    (regs : List (String × RegistryValue)) :
    getDependencies (files.map fun f => f.filter fun lit => !isKnownLit lit) ds dv regs =
      getDependencies files ds dv regs := by
  apply getDependencies_filter
  intro lit hl
  have hk : isKnownLit lit = true := by
    cases hik : isKnownLit lit
    · rw [hik] at hl
      simp at hl
    · rfl
  exact classifyValue_skip_of_known (of_decide_eq_true hk)

/-- C8 counterexample: the claim fails as stated.  The matched literal `.x`
begins with `.` and is skipped, yet the string `.x` appears in the
registryDependencies bucket, put there by the different literal
`components/ui/.x` whose capture group is `.x`. -/
theorem c8_counterexample :
    strStarts ".x" "." = true ∧
    ".x" ∈ (getDependencies [[".x", "components/ui/.x"]] [] [] []).registryDependencies := by
  decide

/-- C8 (amended): every matched import literal beginning with `.` is skipped
and contributes nothing to any bucket: removing all such literals from the
scanned files leaves the output of `getDependencies` unchanged (an equal
string may still enter a bucket through a different literal, e.g. an alias
URL template or a `components/ui/` capture). -/
theorem c8_amended (files : List (List String)) (ds dv : List String)
    (regs : List (String × RegistryValue)) :
    getDependencies (files.map fun f => f.filter fun lit => !strStarts lit ".") ds dv regs =
      getDependencies files ds dv regs := by
  apply getDependencies_filter
  intro lit hl
  apply classifyValue_skip_of_rel
  cases hs : strStarts lit "."
  · rw [hs] at hl
    simp at hl
  · rfl

/-- C10 counterexample: the claim fails as stated.  In the end-to-end
scenario the dependencies bucket is not `["vue"]`: the import `vue` is
skipped by the `knownThirdPartyLibs` rule before the `projectDeps` test. -/
theorem c10_counterexample :
    (getDependencies [["vue", "~/registry/ui/foo", "./local"]] ["vue"] ["vite"]
      [("~/registry/ui", RegistryValue.plain "https://x.test/{name}.json")]).dependencies ≠
      ["vue"] := by
  decide

/-- C10 (amended): in the end-to-end scenario with `projectDeps=["vue"]`,
`projectDevDeps=["vite"]`, the alias table mapping `~/registry/ui` to
`https://x.test/{name}.json`, and one file importing `vue`,
`~/registry/ui/foo` and `./local`, the classifier returns empty
dependencies (`vue` is skipped as a known third-party lib), empty
devDependencies, and `["https://x.test/foo.json"]` as registryDependencies. -/
theorem c10_amended :
    getDependencies [["vue", "~/registry/ui/foo", "./local"]] ["vue"] ["vite"]
      [("~/registry/ui", RegistryValue.plain "https://x.test/{name}.json")] =
      ⟨[], [], ["https://x.test/foo.json"]⟩ := by
  decide

/-- C3 counterexample: the claim fails as stated, because its list of
surviving conditions omits the `knownThirdPartyLibs` skip.  The literal
`vue/x` is not relative, not `lib/utils`-ignored, its package name `vue` is
in neither (empty) dependency set and there is no `components/ui` match; it
matches the alias entry `vue` with non-empty remainder `x`, yet no templated
URL is produced: the bucket is empty, because the `knownThirdPartyLibs` skip
fires first. -/
theorem c3_counterexample :
    strStarts "vue/x" "." = false ∧
    isIgnoredUtils (nfkc "vue/x") = false ∧
    getPackageName (nfkc "vue/x") = "vue" ∧
    getPackageName (nfkc "vue/x") ∉ ([] : List String) ∧
    shadcnCapture (nfkc "vue/x") = none ∧
    firstMatch (buildMatchers [("vue", RegistryValue.plain "https://r.test/{name}.json")])
      (nfkc "vue/x") = some ⟨3, "vue", "https://r.test/{name}.json", none⟩ ∧
    ofChars ((nfkc "vue/x").data.drop 4) = "x" ∧
    (getDependencies [["vue/x"]] [] [] [("vue", RegistryValue.plain "https://r.test/{name}.json")]).registryDependencies = [] := by
  decide

/-- C3 (amended): for every literal that survives all the earlier steps
(non-empty, not relative, not `lib/utils`-ignored, package name not in
`knownThirdPartyLibs` and in neither dependency set, no `components/ui`
match), if `m` is the first alias-table matcher whose prefix pattern
(prefix followed by `/` or end) matches, then when the remainder after the
prefix is non-empty, the registryDependencies bucket contains `m`'s URL
template with the first `{name}` replaced by the remainder, with `?` plus
the URL-encoded parameters appended exactly when at least one parameter is
configured (`paramSuffix`); and when the remainder is empty, the matcher
loop produces no URL and the literal falls through to the default case. -/
theorem c3_amended (files : List (List String)) (ds dv : List String)
    (regs : List (String × RegistryValue)) (f : List String) (lit : String) (m : Matcher)
    (hf : f ∈ files) (hl : lit ∈ f)
    (h0 : lit ≠ "") (h1 : strStarts lit "." = false)
    (h2 : isIgnoredUtils (nfkc lit) = false)
    (h3 : getPackageName (nfkc lit) ∉ knownThirdPartyLibs)
    (h5 : getPackageName (nfkc lit) ∉ ds) (h6 : getPackageName (nfkc lit) ∉ dv)
    (h7 : shadcnCapture (nfkc lit) = none)
    (h8 : firstMatch (buildMatchers regs) (nfkc lit) = some m) :
    (ofChars ((nfkc lit).data.drop (m.pfxLen + 1)) ≠ "" →
      replaceFirst m.urlTemplate "{name}" (ofChars ((nfkc lit).data.drop (m.pfxLen + 1))) ++
        paramSuffix m.params ∈ (getDependencies files ds dv regs).registryDependencies) ∧
    (ofChars ((nfkc lit).data.drop (m.pfxLen + 1)) = "" →
      matchRegistry (buildMatchers regs) (nfkc lit) = none) := by
  have hmr := matchRegistry_eq_of_firstMatch h8
  constructor
  · intro hne
    rw [if_neg hne] at hmr
    exact mem_getDependencies_reg.mpr
      ⟨f, hf, lit, hl, classifyValue_toReg_of_match h0 h1 h2 h3 h5 h6 h7 hmr⟩
  · intro he
    rw [hmr, if_pos he]

/-- C3 witness: the amended theorem applied at a concrete input. -/
theorem c3_amended_witness :
    replaceFirst "https://x.test/{name}.json" "{name}"
        (ofChars ((nfkc "~/registry/ui/foo").data.drop 14)) ++ paramSuffix none ∈
      (getDependencies [["~/registry/ui/foo"]] [] []
        [("~/registry/ui", RegistryValue.plain "https://x.test/{name}.json")]).registryDependencies :=
  (c3_amended [["~/registry/ui/foo"]] [] []
    [("~/registry/ui", RegistryValue.plain "https://x.test/{name}.json")]
    ["~/registry/ui/foo"] "~/registry/ui/foo"
    ⟨13, "~/registry/ui", "https://x.test/{name}.json", none⟩
    (by decide) (by decide) (by decide) (by decide) (by decide) (by decide) (by decide)
    (by decide) (by decide) (by decide)).1 (by decide)

/-- C4 counterexample: the claim fails as stated.  For `ui/block/x.vue` the
deepest mapped segment is `block` (mapped to `registry:block`; `x.vue` is
unmapped), but `getRegistryType` returns `registry:ui`: the first scan pass
only considers segments in the `COMMON_PREFIXES` list, which contains `ui`
but not `block`, so a shallower common segment overrides a deeper mapped
one. -/
theorem c4_counterexample :
    lookupType "block" = some "registry:block" ∧
    lookupType "x.vue" = none ∧
    getRegistryType "ui/block/x.vue" = "registry:ui" ∧
    getRegistryType "ui/block/x.vue" ≠ "registry:block" := by
  decide

/-- C4 (amended): the scan is right-to-left in two passes — first restricted
to segments in the `COMMON_PREFIXES` list, then over the whole table — so
the tag of the deepest mapped segment is returned whenever that segment is
itself in `COMMON_PREFIXES` (a deeper mapped segment outside the list can be
overridden by a shallower common one); in particular
`getRegistryType "ui/button/index.vue" = "registry:ui"` since `button` is
unmapped and `ui` is mapped. -/
theorem c4_amended :
    (∀ path s t : String, deepestMapped (pathSegments path) = some s →
      s ∈ commonPrefixes → lookupType s = some t → getRegistryType path = t) ∧
    getRegistryType "ui/button/index.vue" = "registry:ui" := by
  constructor
  · intro path s t hd hc hl
    exact getRegistryType_of_deepestMapped_common hd hc hl
  · decide

/-- C4 witness: the amended theorem applied at a concrete input. -/
theorem c4_amended_witness : getRegistryType "a/ui/b.vue" = "registry:ui" :=
  c4_amended.1 "a/ui/b.vue" "ui" "registry:ui" (by decide) (by decide) (by decide)

/-- C5 counterexample: the claim fails as stated.  A missing `package.json`
degrades to empty sets silently — no warning is emitted (the `console.warn`
lives only in the `catch` branch for a malformed file); and with empty
dependency sets, not every non-local import becomes a registry reference:
the non-local import `vue` is skipped by the `knownThirdPartyLibs` rule and
appears in no bucket at all. -/
theorem c5_counterexample :
    (readPackageDeps .missing).warned = false ∧
    getDependencies [["vue"]] [] [] [] = ⟨[], [], []⟩ := by
  decide

/-- C5 (amended): a missing or malformed `package.json` is non-fatal —
`loadProjectConfigDeps` still succeeds with empty dependency and
devDependency sets (warning only in the malformed case) — and classification
proceeds: with empty sets, every import that survives the skip rules
(non-empty, non-relative, not `lib/utils`, package name not in
`knownThirdPartyLibs`) is classified as a registryDependency. -/
theorem c5_amended :
    loadProjectConfigDeps true .missing = .ok ⟨[], [], false⟩ ∧
    loadProjectConfigDeps true .malformed = .ok ⟨[], [], true⟩ ∧
    (∀ (files : List (List String)) (regs : List (String × RegistryValue))
      (f : List String) (lit : String),
      f ∈ files → lit ∈ f → lit ≠ "" → strStarts lit "." = false →
      isIgnoredUtils (nfkc lit) = false → getPackageName (nfkc lit) ∉ knownThirdPartyLibs →
      ∃ s, classifyValue [] [] (buildMatchers regs) lit = .toReg s ∧
        s ∈ (getDependencies files [] [] regs).registryDependencies) := by
  refine ⟨rfl, rfl, ?_⟩
  intro files regs f lit hf hl h0 h1 h2 h4
  obtain ⟨s, hs⟩ := @classifyValue_empty_toReg (buildMatchers regs) lit h0 h1 h2 h4
  exact ⟨s, hs, mem_getDependencies_reg.mpr ⟨f, hf, lit, hl, hs⟩⟩

/-- C5 witness: the amended theorem applied at a concrete input. -/
theorem c5_amended_witness :
    ∃ s, classifyValue [] [] (buildMatchers []) "foo" = .toReg s ∧
      s ∈ (getDependencies [["foo"]] [] [] []).registryDependencies :=
  c5_amended.2.2 [["foo"]] [] ["foo"] "foo"
    (by decide) (by decide) (by decide) (by decide) (by decide) (by decide)

/-- C6: for every input file set, dependency sets and registry table, each
of the three lists returned by `getDependencies` is sorted lexicographically
ascending (`SLe`, code-point order) and deduplicated (`Nodup`). -/
theorem c6_sorted_dedup (files : List (List String)) (ds dv : List String)
    (regs : List (String × RegistryValue)) :
    ((getDependencies files ds dv regs).dependencies.Pairwise SLe ∧
      (getDependencies files ds dv regs).dependencies.Nodup) ∧
    ((getDependencies files ds dv regs).devDependencies.Pairwise SLe ∧
      (getDependencies files ds dv regs).devDependencies.Nodup) ∧
    ((getDependencies files ds dv regs).registryDependencies.Pairwise SLe ∧
      (getDependencies files ds dv regs).registryDependencies.Nodup) := by
  obtain ⟨g1, g2, g3⟩ := @nodup_filesFold ds dv (buildMatchers regs) files
    ⟨[], [], []⟩ (by simp) (by simp) (by simp)
  exact ⟨⟨pairwise_sortStrings _, nodup_sortStrings g1⟩,
    ⟨pairwise_sortStrings _, nodup_sortStrings g2⟩,
    ⟨pairwise_sortStrings _, nodup_sortStrings g3⟩⟩

/-- C7 counterexample: the claim fails as stated, because normalization
happens after the relative-import skip.  The literals `．/x` (fullwidth full
stop U+FF0E) and `./x` are NFKC-equivalent, yet they are not treated
identically: `./x` is skipped while `．/x` is classified, contributing the
entry `./x` to the registryDependencies bucket. -/
theorem c7_counterexample :
    nfkc "．/x" = nfkc "./x" ∧
    classifyValue [] [] [] "./x" = .skip ∧
    classifyValue [] [] [] "．/x" = .toReg "./x" ∧
    (getDependencies [["./x"]] [] [] []).registryDependencies = [] ∧
    (getDependencies [["．/x"]] [] [] []).registryDependencies = ["./x"] := by
  decide

/-- C7 (amended): two NFKC-equivalent import literals that both survive the
pre-normalization checks (non-empty and not beginning with `.`) are
classified identically, and together they contribute at most one entry:
scanning both gives the same output as scanning one. -/
theorem c7_amended (ds dv : List String) (regs : List (String × RegistryValue))
    (a b : String) (hn : nfkc a = nfkc b) (ha0 : a ≠ "") (hb0 : b ≠ "")
    (ha1 : strStarts a "." = false) (hb1 : strStarts b "." = false) :
    classifyValue ds dv (buildMatchers regs) a = classifyValue ds dv (buildMatchers regs) b ∧
    getDependencies [[a, b]] ds dv regs = getDependencies [[a]] ds dv regs := by
  have hcv := @classifyValue_nfkc_eq ds dv (buildMatchers regs) a b hn ha0 hb0 ha1 hb1
  refine ⟨hcv, ?_⟩
  simp only [getDependencies]
  have h1 : filesFold ds dv (buildMatchers regs) ⟨[], [], []⟩ [[a, b]] =
      classifyLiteral ds dv (buildMatchers regs)
        (classifyLiteral ds dv (buildMatchers regs) ⟨[], [], []⟩ a) b := rfl
  have h2 : filesFold ds dv (buildMatchers regs) ⟨[], [], []⟩ [[a]] =
      classifyLiteral ds dv (buildMatchers regs) ⟨[], [], []⟩ a := rfl
  rw [h1, h2, classifyLiteral_twice hcv.symm]

/-- C7 witness: the amended theorem applied at a concrete input (`ｆoo` with
fullwidth `ｆ` U+FF46, NFKC-equivalent to `foo`). -/
theorem c7_amended_witness :
    classifyValue [] [] (buildMatchers []) "ｆoo" = classifyValue [] [] (buildMatchers []) "foo" ∧
    getDependencies [["ｆoo", "foo"]] [] [] [] = getDependencies [["ｆoo"]] [] [] [] :=
  c7_amended [] [] [] "ｆoo" "foo" (by decide) (by decide) (by decide) (by decide) (by decide)

/-- C9: the single-file naming rule holds as specified.  When the file set
is exactly one file whose basename does not begin with `index.`,
`getComponentName` agrees with the spec's rule order
(`resolveNameSingleSpec`): strip the extension; a case-insensitive match of
the directory basename returns the directory basename (canonical casing);
else a stripped name that differs from the directory basename and is longer
than 2 characters wins; otherwise the directory basename.  In particular
`getComponentName "/proj/composable" ["/proj/composable/createContext.ts"] =
"createContext"`. -/
theorem c9_single_file_rule :
    (∀ dir f : String, strStarts (basename f) "index." = false →
      getComponentName dir [f] = resolveNameSingleSpec dir f) ∧
    getComponentName "/proj/composable" ["/proj/composable/createContext.ts"] = "createContext" := by
  exact ⟨fun dir f h => getComponentName_single_eq_spec dir f h, by decide⟩

/-- C9 witness: the theorem applied at a concrete input. -/
theorem c9_single_file_rule_witness :
    getComponentName "/proj/modal" ["/proj/modal/Button.vue"] =
      resolveNameSingleSpec "/proj/modal" "/proj/modal/Button.vue" :=
  c9_single_file_rule.1 "/proj/modal" "/proj/modal/Button.vue" (by decide)
